import Mathlib

/-!
Shallow embedding of the multi-store registry and configuration loader of the
shopify-mcp repository (src/registry/StoreRegistry.ts and
src/config/loadConfig.ts), together with proofs settling the frozen claims
about them.

Conventions of the embedding:
* JavaScript `Map<string, V>` becomes an insertion-ordered association list
  `List (String × V)`; `Map.set` replaces in place or appends, `Map.delete`
  removes the entry, `Map.get`/`Map.has` look the key up.
* JavaScript string truthiness (`if (s)`) is an explicit emptiness test; an
  optional parameter is an `Option String`, and `if (x)` on it is true
  exactly for `some s` with `s ≠ ""`.
* `alias.toLowerCase()` becomes `lowerStr`, mapping `Char.toLower` over the
  characters.
* Object identity of `new GraphQLClient(...)` is modelled by an allocation
  counter `nextId` in the registry state: each construction stamps the
  current counter on the client and increments it, so clients created by
  distinct constructor calls are distinct values.
* Throwing methods return `Except RegError α`; a JavaScript `throw` leaves
  the registry unchanged in every operation modelled here, because every
  mutation in the source happens after its guarding check (or, in
  `parseAndRegisterConfig`, mutations preceding a throw are reproduced
  before the error is returned is not needed: with an empty `stores`
  mapping no mutation precedes the throw, which is the only case a claim
  touches).
* Platform builtins (`path.resolve`, `fs.existsSync`/`readFileSync`,
  `JSON.parse`, `process.env`) are not code of this repository; they are
  modelled as fields of an ambient `World`.
-/

deriving instance DecidableEq for Except

/-- `Char.toLower` on every character: model of JavaScript
`String.prototype.toLowerCase` (ASCII range, as Lean's `Char.toLower`). -/
def lowerStr (s : String) : String :=
  ⟨s.data.map Char.toLower⟩

/-- Model of JavaScript truthiness of an optional string parameter:
`if (x)` is taken for `some s` with `s ≠ ""`. -/
def optTruthy : Option String → Bool
  | some s => s ≠ ""
  | none => false

/-- Model of a JavaScript string value that counts as present and not the
literal `"undefined"` (the pattern `v && v !== "undefined"`). -/
def envSet : Option String → Bool
  | some s => s ≠ "" && s ≠ "undefined"
  | none => false

/-- `Map.get` on an insertion-ordered association list. -/
def mapGet {α : Type} (k : String) : List (String × α) → Option α
  | [] => none
  | (k', v) :: rest => if k' = k then some v else mapGet k rest

/-- `Map.set` on an insertion-ordered association list: replace in place, or
append when the key is new. -/
def mapSet {α : Type} (k : String) (v : α) : List (String × α) → List (String × α)
  | [] => [(k, v)]
  | (k', v') :: rest => if k' = k then (k, v) :: rest else (k', v') :: mapSet k v rest

/-- `Map.delete` on an association list. -/
def mapDelete {α : Type} (k : String) : List (String × α) → List (String × α)
  | [] => []
  | (k', v) :: rest => if k' = k then mapDelete k rest else (k', v) :: mapDelete k rest

/-- `Map.has`. -/
def mapHas {α : Type} (k : String) (m : List (String × α)) : Bool :=
  (mapGet k m).isSome

/-- `interface StoreConfig { domain; accessToken; apiVersion? }` from
StoreRegistry.ts. -/
structure StoreConfig where
  domain : String
  accessToken : String
  apiVersion : Option String
  deriving Repr, DecidableEq

/-- `interface StoreInfo { alias; domain }` from StoreRegistry.ts. -/
structure StoreInfo where
  «alias» : String
  domain : String
  deriving Repr, DecidableEq

/-- `const DEFAULT_API_VERSION = "2024-01"`. -/
def DEFAULT_API_VERSION : String := "2024-01"

/-- `config.apiVersion || DEFAULT_API_VERSION`: JavaScript `||` takes the
right operand when the left is absent or the empty string. -/
def jsOrDefault (v : Option String) (d : String) : String :=
  match v with
  | some s => if s = "" then d else s
  | none => d

/-- Model of a `GraphQLClient` instance: the constructor arguments from
`getClient` plus an allocation stamp `id` modelling JavaScript object
identity (distinct `new` calls yield distinct instances). -/
structure Client where
  url : String
  accessToken : String
  id : Nat
  deriving Repr, DecidableEq

/-- The URL built in `getClient`:
`https://DOMAIN/admin/api/APIVERSION/graphql.json`; an absent `apiVersion`
would interpolate as the text `undefined`, as in JavaScript templates. -/
def clientUrl (config : StoreConfig) : String :=
  "https://" ++ config.domain ++ "/admin/api/" ++
    (match config.apiVersion with
      | some v => v
      | none => "undefined") ++ "/graphql.json"

/-- Errors thrown by the registry.  The source throws `Error` with a message
everywhere; the constructors record which throw site fired and the data
interpolated into its message (the requested alias and
`this.listAliases()`, the list of registered aliases). -/
inductive RegError where
  /-- "Store ... not found. Available stores: ..." from `resolveAlias`, and
  "Cannot set default: ..." from `setDefault`. -/
  | notFound («alias» : String) (available : List String)
  /-- "No store specified and no default store set. ..." from
  `resolveAlias`. -/
  | noDefault (available : List String)
  /-- The `if (!config)` throw sites inside `getClient` / `getStoreInfo`
  that fire after `resolveAlias` already succeeded. -/
  | storeMissingAfterResolve («alias» : Option String) (available : List String)
  deriving Repr, DecidableEq

/-- The mutable state of `class StoreRegistry`. -/
structure Registry where
  stores : List (String × StoreConfig)
  clients : List (String × Client)
  defaultStoreAlias : Option String
  /-- Allocation counter modelling object identity of `new GraphQLClient`. -/
  nextId : Nat
  deriving Repr, DecidableEq

namespace Registry

/-- `new StoreRegistry()`. -/
def empty : Registry :=
  { stores := [], clients := [], defaultStoreAlias := none, nextId := 0 }

/-- `listAliases(): Array.from(this.stores.keys())`. -/
def listAliases (r : Registry) : List String :=
  r.stores.map Prod.fst

/-- `listStores()`. -/
def listStores (r : Registry) : List StoreInfo :=
  r.stores.map fun p => { «alias» := p.1, domain := p.2.domain }

/-- `get size()`. -/
def size (r : Registry) : Nat :=
  r.stores.length

/-- `register(alias, config)`: store under the lowercased alias with
`apiVersion` defaulted, and evict any cached client for that alias. -/
def register («alias» : String) (config : StoreConfig) (r : Registry) : Registry :=
  let normalizedAlias := lowerStr «alias»
  { r with
    stores := mapSet normalizedAlias
      { config with apiVersion := some (jsOrDefault config.apiVersion DEFAULT_API_VERSION) }
      r.stores
    clients := mapDelete normalizedAlias r.clients }

/-- `setDefault(alias)`: throws when the normalized alias is absent. -/
def setDefault («alias» : String) (r : Registry) : Except RegError Registry :=
  let normalizedAlias := lowerStr «alias»
  if mapHas normalizedAlias r.stores then
    .ok { r with defaultStoreAlias := some normalizedAlias }
  else
    .error (.notFound «alias» r.listAliases)

/-- `hasStore(alias)`. -/
def hasStore («alias» : String) (r : Registry) : Bool :=
  mapHas (lowerStr «alias») r.stores

/-- `getDefaultAlias()`: the explicitly set default if truthy, else the sole
key when exactly one store is registered (`Array.from(keys())[0]`), else
`null`. -/
def getDefaultAlias (r : Registry) : Option String :=
  if optTruthy r.defaultStoreAlias then r.defaultStoreAlias
  else if r.stores.length = 1 then (r.stores.map Prod.fst).head?
  else none

/-- `resolveAlias(alias?)`: a truthy alias must exist case-insensitively;
otherwise delegate to `getDefaultAlias()` and throw when that is falsy. -/
def resolveAlias («alias» : Option String) (r : Registry) : Except RegError String :=
  if optTruthy «alias» then
    let a := «alias».getD ""
    let normalizedAlias := lowerStr a
    if mapHas normalizedAlias r.stores then
      .ok normalizedAlias
    else
      .error (.notFound a r.listAliases)
  else
    match r.getDefaultAlias with
    | some d => if d = "" then .error (.noDefault r.listAliases) else .ok d
    | none => .error (.noDefault r.listAliases)

/-- `getClient(alias?)`: resolve, serve the cached client when present, else
build a new `GraphQLClient` from the stored config and cache it. -/
def getClient («alias» : Option String) (r : Registry) : Except RegError (Client × Registry) :=
  match r.resolveAlias «alias» with
  | .error e => .error e
  | .ok resolvedAlias =>
    let normalizedAlias := lowerStr resolvedAlias
    match mapGet normalizedAlias r.clients with
    | some cachedClient => .ok (cachedClient, r)
    | none =>
      match mapGet normalizedAlias r.stores with
      | none => .error (.storeMissingAfterResolve «alias» r.listAliases)
      | some config =>
        let client : Client :=
          { url := clientUrl config, accessToken := config.accessToken, id := r.nextId }
        .ok (client,
          { r with
            clients := mapSet normalizedAlias client r.clients
            nextId := r.nextId + 1 })

/-- `getStoreInfo(alias?)`: resolve and return the resolved alias with the
stored domain. -/
def getStoreInfo («alias» : Option String) (r : Registry) : Except RegError StoreInfo :=
  match r.resolveAlias «alias» with
  | .error e => .error e
  | .ok resolvedAlias =>
    let normalizedAlias := lowerStr resolvedAlias
    match mapGet normalizedAlias r.stores with
    | none => .error (.storeMissingAfterResolve «alias» r.listAliases)
    | some config => .ok { «alias» := resolvedAlias, domain := config.domain }

end Registry

/-- The state-changing registry calls, for quantifying over "any sequence of
operations".  Read-only calls (`hasStore`, `getStoreInfo`, `listStores`,
`getDefaultAlias`, …) never change the state and are omitted. -/
inductive Op where
  | register («alias» : String) (config : StoreConfig)
  | setDefault («alias» : String)
  | getClient («alias» : Option String)
  deriving Repr, DecidableEq

/-- Effect of one operation on the registry state; a thrown error leaves the
state unchanged (every mutation in the source follows its guarding check). -/
def applyOp (r : Registry) (op : Op) : Registry :=
  match op with
  | .register a c => r.register a c
  | .setDefault a =>
    match r.setDefault a with
    | .ok r' => r'
    | .error _ => r
  | .getClient a =>
    match r.getClient a with
    | .ok (_, r') => r'
    | .error _ => r

/-- Running a sequence of operations from a state. -/
def applyOps (ops : List Op) (r : Registry) : Registry :=
  ops.foldl applyOp r

/-- States reachable from the freshly constructed singleton registry. -/
def Reachable (r : Registry) : Prop :=
  ∃ ops : List Op, applyOps ops Registry.empty = r

/-! ## Configuration loader (src/config/loadConfig.ts) -/

/-- JSON values, the range of the platform builtin `JSON.parse`. -/
inductive Json where
  | null
  | bool (b : Bool)
  | num (n : Int)
  | str (s : String)
  | arr (elems : List Json)
  | obj (fields : List (String × Json))

/-- Field lookup on a JSON object (`parsed.stores`, `store.domain`, …). -/
def jGet (k : String) (fields : List (String × Json)) : Option Json :=
  mapGet k fields

/-- `z.infer<typeof ConfigFileSchema>`: the parsed configuration file. -/
structure ConfigFile where
  stores : List (String × StoreConfig)
  defaultStore : Option String
  deriving Repr, DecidableEq

/-- `StoreConfigSchema.safeParse` on one JSON value: an object with
non-empty string `domain` and `accessToken` (`z.string().min(1)`) and an
optional string `apiVersion`. -/
def parseStoreConfig (j : Json) : Option StoreConfig :=
  match j with
  | .obj fields =>
    match jGet "domain" fields, jGet "accessToken" fields with
    | some (.str domain), some (.str accessToken) =>
      if domain = "" ∨ accessToken = "" then none
      else
        match jGet "apiVersion" fields with
        | none => some { domain, accessToken, apiVersion := none }
        | some (.str v) => some { domain, accessToken, apiVersion := some v }
        | some _ => none
    | _, _ => none
  | _ => none

/-- Parse every value of the `stores` record (`z.record(z.string(),
StoreConfigSchema)`). -/
def parseStoresRecord : List (String × Json) → Option (List (String × StoreConfig))
  | [] => some []
  | (k, j) :: rest =>
    match parseStoreConfig j, parseStoresRecord rest with
    | some c, some cs => some ((k, c) :: cs)
    | _, _ => none

/-- `ConfigFileSchema.safeParse`: an object with a `stores` record and an
optional string `defaultStore`; `none` models a failed validation. -/
def safeParseConfig (j : Json) : Option ConfigFile :=
  match j with
  | .obj fields =>
    match jGet "stores" fields with
    | some (.obj storeFields) =>
      match parseStoresRecord storeFields with
      | some stores =>
        match jGet "defaultStore" fields with
        | none => some { stores, defaultStore := none }
        | some (.str d) => some { stores, defaultStore := some d }
        | some _ => none
      | none => none
    | _ => none
  | _ => none

/-- `interface LoadConfigOptions` from loadConfig.ts. -/
structure LoadConfigOptions where
  configPath : Option String
  accessToken : Option String
  domain : Option String
  deriving Repr, DecidableEq

/-- The environment variables the loader reads. -/
structure Env where
  /-- `SHOPIFY_STORES_CONFIG` -/
  storesConfig : Option String
  /-- `SHOPIFY_ACCESS_TOKEN` -/
  accessToken : Option String
  /-- `MYSHOPIFY_DOMAIN` -/
  domain : Option String
  deriving Repr, DecidableEq

/-- Ambient platform builtins consumed by the loader, none of which are code
of this repository: `path.resolve`, the file system (`fs.existsSync` /
`fs.readFileSync`, merged: `fileContent p = none` means the file does not
exist), `JSON.parse` (`none` means it throws), and `process.env`. -/
structure World where
  resolvePath : String → String
  fileContent : String → Option String
  parseJson : String → Option Json
  env : Env

/-- Errors thrown by the loader; each constructor is one throw site with the
data interpolated into its message. -/
inductive ConfigError where
  /-- An error thrown by a registry call (`setDefault`) propagates. -/
  | reg (e : RegError)
  /-- "Config file not found: ABSOLUTEPATH" -/
  | fileNotFound (absolutePath : String)
  /-- "Invalid JSON in SOURCE: ..." -/
  | invalidJson (source : String)
  /-- "Invalid config structure in SOURCE: ..." -/
  | invalidStructure (source : String)
  /-- "No stores defined in SOURCE" -/
  | noStoresDefined (source : String)
  /-- "Both --accessToken and --domain are required when using CLI arguments." -/
  | cliArgsIncomplete
  /-- "No Shopify store configuration found. Please provide one of: ..." -/
  | noConfigFound
  deriving Repr, DecidableEq

/-- `parseAndRegisterConfig(registry, jsonString, source)`: parse, validate,
register every store, apply `defaultStore`, then reject a still-empty
registry. -/
def parseAndRegisterConfig (w : World) (registry : Registry) (jsonString source : String) :
    Except ConfigError Registry :=
  match w.parseJson jsonString with
  | none => .error (.invalidJson source)
  | some parsed =>
    match safeParseConfig parsed with
    | none => .error (.invalidStructure source)
    | some config =>
      let registry := config.stores.foldl (fun r p => r.register p.1 p.2) registry
      let afterDefault : Except ConfigError Registry :=
        match config.defaultStore with
        | some d =>
          if d = "" then .ok registry
          else
            match registry.setDefault d with
            | .ok r' => .ok r'
            | .error e => .error (.reg e)
        | none => .ok registry
      match afterDefault with
      | .error e => .error e
      | .ok registry =>
        if registry.size = 0 then .error (.noStoresDefined source) else .ok registry

/-- `loadFromConfigFile(registry, configPath)`. -/
def loadFromConfigFile (w : World) (registry : Registry) (configPath : String) :
    Except ConfigError Registry :=
  let absolutePath := w.resolvePath configPath
  match w.fileContent absolutePath with
  | none => .error (.fileNotFound absolutePath)
  | some fileContent =>
    parseAndRegisterConfig w registry fileContent ("config file: " ++ absolutePath)

/-- `loadFromStoresConfigEnv(registry, envValue)`: a path-looking value
naming an existing file is loaded as a file, anything else is parsed as
inline JSON. -/
def loadFromStoresConfigEnv (w : World) (registry : Registry) (envValue : String) :
    Except ConfigError Registry :=
  if envValue.endsWith ".json" || envValue.startsWith "/" || envValue.startsWith "./" then
    let absolutePath := w.resolvePath envValue
    match w.fileContent absolutePath with
    | some _ => loadFromConfigFile w registry absolutePath
    | none => parseAndRegisterConfig w registry envValue "SHOPIFY_STORES_CONFIG env var"
  else
    parseAndRegisterConfig w registry envValue "SHOPIFY_STORES_CONFIG env var"

/-- Priorities 3 and 4 of `loadConfig`: the legacy environment pair, then
the CLI flag pair, then the final "no configuration" error. -/
def loadConfigLegacy (w : World) (registry : Registry) (options : LoadConfigOptions) :
    Except ConfigError Registry :=
  if envSet w.env.accessToken && envSet w.env.domain then
    let r' := registry.register "default"
      { domain := w.env.domain.getD "", accessToken := w.env.accessToken.getD "",
        apiVersion := none }
    match r'.setDefault "default" with
    | .ok r'' => .ok r''
    | .error e => .error (.reg e)
  else if optTruthy options.accessToken && optTruthy options.domain then
    let r' := registry.register "default"
      { domain := options.domain.getD "", accessToken := options.accessToken.getD "",
        apiVersion := none }
    match r'.setDefault "default" with
    | .ok r'' => .ok r''
    | .error e => .error (.reg e)
  else if optTruthy options.accessToken || optTruthy options.domain then
    .error .cliArgsIncomplete
  else
    .error .noConfigFound

/-- `loadConfig(registry, options)`: the four sources in strict priority
order. -/
def loadConfig (w : World) (registry : Registry) (options : LoadConfigOptions) :
    Except ConfigError Registry :=
  if optTruthy options.configPath then
    loadFromConfigFile w registry (options.configPath.getD "")
  else
    match w.env.storesConfig with
    | some v =>
      if v ≠ "" && v ≠ "undefined" then loadFromStoresConfigEnv w registry v
      else loadConfigLegacy w registry options
    | none => loadConfigLegacy w registry options

/-- `parseConfigArgs(args)`: scan the argument list; a recognized flag
followed by a truthy value sets the option and skips the value. -/
def parseConfigArgs : List String → LoadConfigOptions → LoadConfigOptions
  | [], o => o
  | [_], o => o
  | a :: next :: rest, o =>
    if a = "--config" ∧ next ≠ "" then
      parseConfigArgs rest { o with configPath := some next }
    else if a = "--accessToken" ∧ next ≠ "" then
      parseConfigArgs rest { o with accessToken := some next }
    else if a = "--domain" ∧ next ≠ "" then
      parseConfigArgs rest { o with domain := some next }
    else
      parseConfigArgs (next :: rest) o

/-! ## Lemmas about lowercasing -/

theorem Char.toNat_ofNat_of_valid {n : Nat} (h : n.isValidChar) :
    (Char.ofNat n).toNat = n := by
  simp only [Char.ofNat, dif_pos h, Char.ofNatAux, Char.toNat]
  rfl

theorem charToLower_idem (c : Char) : c.toLower.toLower = c.toLower := by
  simp only [Char.toLower]
  by_cases h : c.toNat ≥ 65 ∧ c.toNat ≤ 90
  · rw [if_pos h]
    have hv : (c.toNat + 32).isValidChar := Or.inl (by omega)
    rw [Char.toNat_ofNat_of_valid hv, if_neg (by omega)]
  · rw [if_neg h, if_neg h]

theorem lowerStr_idem (s : String) : lowerStr (lowerStr s) = lowerStr s := by
  simp only [lowerStr, List.map_map]
  congr 1
  exact List.map_congr_left fun c _ => charToLower_idem c

theorem lowerStr_data (s : String) : (lowerStr s).data = s.data.map Char.toLower := rfl

theorem lowerStr_eq_empty_iff (s : String) : lowerStr s = "" ↔ s = "" := by
  constructor
  · intro h
    have hd : (lowerStr s).data = [] := congrArg String.data h
    rw [lowerStr_data, List.map_eq_nil_iff] at hd
    exact congrArg String.mk hd
  · intro h; rw [h]; rfl

/-! ## Lemmas about the association-list maps -/

theorem mapGet_set_self {α : Type} (k : String) (v : α) (m : List (String × α)) :
    mapGet k (mapSet k v m) = some v := by
  induction m with
  | nil => simp [mapGet, mapSet]
  | cons hd tl ih =>
    obtain ⟨k', v'⟩ := hd
    by_cases h : k' = k
    · simp [mapSet, mapGet, h]
    · simp [mapSet, mapGet, h, ih]

theorem mapGet_set_ne {α : Type} {k k' : String} (v : α) (m : List (String × α))
    (h : k' ≠ k) : mapGet k (mapSet k' v m) = mapGet k m := by
  induction m with
  | nil => simp [mapGet, mapSet, h]
  | cons hd tl ih =>
    obtain ⟨k'', v''⟩ := hd
    simp only [mapSet]
    by_cases h2 : k'' = k'
    · subst h2
      simp [mapGet, h]
    · rw [if_neg h2]
      by_cases h3 : k'' = k
      · simp [mapGet, h3]
      · simp [mapGet, h3, ih]

theorem mapGet_delete_self {α : Type} (k : String) (m : List (String × α)) :
    mapGet k (mapDelete k m) = none := by
  induction m with
  | nil => rfl
  | cons hd tl ih =>
    obtain ⟨k', v'⟩ := hd
    by_cases h : k' = k <;> simp [mapDelete, mapGet, h, ih]

theorem mapGet_delete_ne {α : Type} {k k' : String} (m : List (String × α))
    (h : k' ≠ k) : mapGet k (mapDelete k' m) = mapGet k m := by
  induction m with
  | nil => rfl
  | cons hd tl ih =>
    obtain ⟨k'', v''⟩ := hd
    simp only [mapDelete]
    by_cases h2 : k'' = k'
    · subst h2
      rw [if_pos rfl, ih]
      simp [mapGet, h]
    · rw [if_neg h2]
      by_cases h3 : k'' = k
      · simp [mapGet, h3]
      · simp [mapGet, h3, ih]

theorem mem_mapSet {α : Type} {k : String} {v : α} {m : List (String × α)} {e : String × α}
    (h : e ∈ mapSet k v m) : e = (k, v) ∨ e ∈ m := by
  induction m with
  | nil => simpa [mapSet] using h
  | cons hd tl ih =>
    obtain ⟨k', v'⟩ := hd
    by_cases h2 : k' = k
    · simp only [mapSet, if_pos h2, List.mem_cons] at h
      rcases h with h | h
      · exact .inl h
      · exact .inr (List.mem_cons_of_mem _ h)
    · simp only [mapSet, if_neg h2, List.mem_cons] at h
      rcases h with h | h
      · exact .inr (h ▸ List.mem_cons_self _ _)
      · rcases ih h with h | h
        · exact .inl h
        · exact .inr (List.mem_cons_of_mem _ h)

theorem mem_mapDelete {α : Type} {k : String} {m : List (String × α)} {e : String × α}
    (h : e ∈ mapDelete k m) : e ∈ m := by
  induction m with
  | nil => simp [mapDelete] at h
  | cons hd tl ih =>
    obtain ⟨k', v'⟩ := hd
    by_cases h2 : k' = k
    · simp only [mapDelete, if_pos h2] at h
      exact List.mem_cons_of_mem _ (ih h)
    · simp only [mapDelete, if_neg h2, List.mem_cons] at h
      rcases h with h | h
      · exact h ▸ List.mem_cons_self _ _
      · exact List.mem_cons_of_mem _ (ih h)

theorem mapGet_isSome_iff_mem_keys {α : Type} (k : String) (m : List (String × α)) :
    (mapGet k m).isSome ↔ k ∈ m.map Prod.fst := by
  induction m with
  | nil => simp [mapGet]
  | cons hd tl ih =>
    obtain ⟨k', v'⟩ := hd
    simp only [mapGet, List.map_cons, List.mem_cons]
    by_cases h : k' = k
    · subst h; simp
    · rw [if_neg h, ih]
      constructor
      · exact fun hm => Or.inr hm
      · rintro (h' | hm)
        · exact absurd h'.symm h
        · exact hm

theorem mapGet_eq_some_mem {α : Type} {k : String} {m : List (String × α)} {v : α}
    (h : mapGet k m = some v) : (k, v) ∈ m := by
  induction m with
  | nil => simp [mapGet] at h
  | cons hd tl ih =>
    obtain ⟨k', v'⟩ := hd
    by_cases h2 : k' = k
    · subst h2
      simp only [mapGet, if_true, eq_self_iff_true, Option.some.injEq] at h
      subst h
      exact List.mem_cons_self _ _
    · simp only [mapGet, if_neg h2] at h
      exact List.mem_cons_of_mem _ (ih h)

theorem keys_mapSet_mem {α : Type} {k : String} (v : α) {m : List (String × α)}
    (h : k ∈ m.map Prod.fst) :
    (mapSet k v m).map Prod.fst = m.map Prod.fst := by
  induction m with
  | nil => simp at h
  | cons hd tl ih =>
    obtain ⟨k', v'⟩ := hd
    by_cases h2 : k' = k
    · simp [mapSet, h2]
    · simp only [List.map_cons, List.mem_cons] at h
      rcases h with h | h
      · exact absurd h.symm h2
      · simp [mapSet, h2, ih h]

theorem keys_mapSet_not_mem {α : Type} {k : String} (v : α) {m : List (String × α)}
    (h : k ∉ m.map Prod.fst) :
    (mapSet k v m).map Prod.fst = m.map Prod.fst ++ [k] := by
  induction m with
  | nil => simp [mapSet]
  | cons hd tl ih =>
    obtain ⟨k', v'⟩ := hd
    simp only [List.map_cons, List.mem_cons] at h
    push_neg at h
    have hne : k' ≠ k := fun hh => h.1 hh.symm
    simp [mapSet, hne, ih h.2]

theorem keys_mapDelete_subset {α : Type} (k : String) (m : List (String × α)) :
    ∀ k', k' ∈ (mapDelete k m).map Prod.fst → k' ∈ m.map Prod.fst := by
  intro k' h
  simp only [List.mem_map] at h ⊢
  obtain ⟨e, he, rfl⟩ := h
  exact ⟨e, mem_mapDelete he, rfl⟩

theorem mem_keys_mapSet {α : Type} {k : String} (k' : String) (v : α) {m : List (String × α)}
    (h : k ∈ m.map Prod.fst) : k ∈ (mapSet k' v m).map Prod.fst := by
  by_cases h2 : k' ∈ m.map Prod.fst
  · rw [keys_mapSet_mem v h2]; exact h
  · rw [keys_mapSet_not_mem v h2]; exact List.mem_append_left _ h

theorem self_mem_keys_mapSet {α : Type} (k : String) (v : α) (m : List (String × α)) :
    k ∈ (mapSet k v m).map Prod.fst := by
  by_cases h2 : k ∈ m.map Prod.fst
  · rw [keys_mapSet_mem v h2]; exact h2
  · rw [keys_mapSet_not_mem v h2]; simp

theorem mapGet_delete_eq_some {α : Type} {k k' : String} {m : List (String × α)} {v : α}
    (h : mapGet k (mapDelete k' m) = some v) : mapGet k m = some v := by
  by_cases h2 : k' = k
  · subst h2; rw [mapGet_delete_self] at h; cases h
  · rwa [mapGet_delete_ne m h2] at h

/-! ## The registry invariant and reachability -/

/-- Invariant maintained by every reachable registry state: store keys are
lowercase-normalized and duplicate-free, the client cache only holds keys of
registered stores, every cached client was stamped by a past allocation, and
the explicit default names a registered store. -/
def RegInv (r : Registry) : Prop :=
  (∀ k ∈ r.stores.map Prod.fst, lowerStr k = k) ∧
  (r.stores.map Prod.fst).Nodup ∧
  (∀ k ∈ r.clients.map Prod.fst, k ∈ r.stores.map Prod.fst) ∧
  (∀ e ∈ r.clients, e.2.id < r.nextId) ∧
  (∀ d, r.defaultStoreAlias = some d → d ∈ r.stores.map Prod.fst)

theorem inv_empty : RegInv Registry.empty := by
  refine ⟨?_, ?_, ?_, ?_, ?_⟩ <;> simp [Registry.empty]

theorem inv_register {r : Registry} (hr : RegInv r) (a : String) (c : StoreConfig) :
    RegInv (r.register a c) := by
  obtain ⟨hlow, hnodup, hsub, hid, hdef⟩ := hr
  refine ⟨?_, ?_, ?_, ?_, ?_⟩
  · intro k hk
    simp only [Registry.register, List.mem_map] at hk
    obtain ⟨e, he, rfl⟩ := hk
    rcases mem_mapSet he with h | h
    · rw [h]; exact lowerStr_idem a
    · exact hlow _ (List.mem_map_of_mem Prod.fst h)
  · simp only [Registry.register]
    by_cases h : lowerStr a ∈ r.stores.map Prod.fst
    · rw [keys_mapSet_mem _ h]; exact hnodup
    · rw [keys_mapSet_not_mem _ h]
      simp [List.nodup_append, hnodup, h]
  · intro k hk
    simp only [Registry.register] at hk ⊢
    exact mem_keys_mapSet _ _ (hsub k (keys_mapDelete_subset _ _ k hk))
  · intro e he
    simp only [Registry.register] at he ⊢
    exact hid e (mem_mapDelete he)
  · intro d hd
    simp only [Registry.register] at hd ⊢
    exact mem_keys_mapSet _ _ (hdef d hd)

theorem setDefault_ok_state {r r' : Registry} {a : String}
    (h : r.setDefault a = .ok r') :
    r' = { r with defaultStoreAlias := some (lowerStr a) } ∧
      lowerStr a ∈ r.stores.map Prod.fst := by
  unfold Registry.setDefault at h
  by_cases hh : mapHas (lowerStr a) r.stores
  · rw [if_pos hh] at h
    cases h
    exact ⟨rfl, (mapGet_isSome_iff_mem_keys _ _).mp hh⟩
  · rw [if_neg hh] at h
    cases h

theorem inv_setDefault {r r' : Registry} {a : String} (hr : RegInv r)
    (h : r.setDefault a = .ok r') : RegInv r' := by
  obtain ⟨hst, hmem⟩ := setDefault_ok_state h
  subst hst
  obtain ⟨hlow, hnodup, hsub, hid, _⟩ := hr
  refine ⟨hlow, hnodup, hsub, hid, ?_⟩
  intro d hd
  cases hd
  exact hmem

/-- Case analysis of a successful `getClient`: either a cache hit leaving the
state unchanged, or a fresh construction stamped with the current counter. -/
theorem getClient_ok_cases {r r' : Registry} {arg : Option String} {cl : Client}
    (h : r.getClient arg = .ok (cl, r')) :
    ∃ k, r.resolveAlias arg = .ok k ∧
      ((mapGet (lowerStr k) r.clients = some cl ∧ r' = r) ∨
       (mapGet (lowerStr k) r.clients = none ∧
        ∃ config, mapGet (lowerStr k) r.stores = some config ∧
          cl = ⟨clientUrl config, config.accessToken, r.nextId⟩ ∧
          r' = { r with clients := mapSet (lowerStr k) cl r.clients,
                        nextId := r.nextId + 1 })) := by
  unfold Registry.getClient at h
  cases hres : r.resolveAlias arg with
  | error e => rw [hres] at h; cases h
  | ok k =>
    rw [hres] at h
    simp only at h
    refine ⟨k, rfl, ?_⟩
    cases hc : mapGet (lowerStr k) r.clients with
    | some cached =>
      rw [hc] at h
      simp only [Except.ok.injEq, Prod.mk.injEq] at h
      exact .inl ⟨congrArg some h.1, h.2.symm⟩
    | none =>
      rw [hc] at h
      cases hs : mapGet (lowerStr k) r.stores with
      | none => rw [hs] at h; cases h
      | some config =>
        rw [hs] at h
        simp only [Except.ok.injEq, Prod.mk.injEq] at h
        obtain ⟨h1, h2⟩ := h
        subst h1
        exact .inr ⟨rfl, config, rfl, rfl, h2.symm⟩

theorem inv_getClient {r r' : Registry} {arg : Option String} {cl : Client}
    (hr : RegInv r) (h : r.getClient arg = .ok (cl, r')) : RegInv r' := by
  obtain ⟨k, _, hcases⟩ := getClient_ok_cases h
  obtain ⟨hlow, hnodup, hsub, hid, hdef⟩ := hr
  rcases hcases with ⟨_, rfl⟩ | ⟨_, config, hs, hcl, rfl⟩
  · exact ⟨hlow, hnodup, hsub, hid, hdef⟩
  · refine ⟨hlow, hnodup, ?_, ?_, hdef⟩
    · intro k' hk'
      simp only at hk' ⊢
      by_cases h2 : k' = lowerStr k
      · subst h2
        rw [← mapGet_isSome_iff_mem_keys, hs]
        rfl
      · rcases List.mem_map.mp hk' with ⟨e, he, rfl⟩
        rcases mem_mapSet he with h3 | h3
        · exact absurd (congrArg Prod.fst h3) h2
        · exact hsub _ (List.mem_map_of_mem Prod.fst h3)
    · intro e he
      simp only at he ⊢
      rcases mem_mapSet he with h3 | h3
      · rw [h3, hcl]
        exact Nat.lt_succ_self _
      · exact Nat.lt_succ_of_lt (hid e h3)

theorem inv_applyOp {r : Registry} (hr : RegInv r) (op : Op) : RegInv (applyOp r op) := by
  cases op with
  | register a c => exact inv_register hr a c
  | setDefault a =>
    simp only [applyOp]
    cases h : r.setDefault a with
    | ok r' => exact inv_setDefault hr h
    | error e => exact hr
  | getClient arg =>
    simp only [applyOp]
    cases h : r.getClient arg with
    | ok p =>
      obtain ⟨cl, r'⟩ := p
      exact inv_getClient hr h
    | error e => exact hr

theorem inv_applyOps (ops : List Op) {r : Registry} (hr : RegInv r) :
    RegInv (applyOps ops r) := by
  induction ops generalizing r with
  | nil => exact hr
  | cons op ops ih => exact ih (inv_applyOp hr op)

theorem reachable_inv {r : Registry} (h : Reachable r) : RegInv r := by
  obtain ⟨ops, rfl⟩ := h
  exact inv_applyOps ops inv_empty

theorem nextId_le_applyOp (r : Registry) (op : Op) : r.nextId ≤ (applyOp r op).nextId := by
  cases op with
  | register a c => exact Nat.le_refl _
  | setDefault a =>
    simp only [applyOp]
    cases h : r.setDefault a with
    | ok r' =>
      obtain ⟨hst, _⟩ := setDefault_ok_state h
      subst hst
      exact Nat.le_refl _
    | error e => exact Nat.le_refl _
  | getClient arg =>
    simp only [applyOp]
    cases h : r.getClient arg with
    | ok p =>
      obtain ⟨cl, r'⟩ := p
      obtain ⟨k, _, hcases⟩ := getClient_ok_cases h
      rcases hcases with ⟨_, rfl⟩ | ⟨_, config, _, _, rfl⟩
      · exact Nat.le_refl _
      · exact Nat.le_succ _
    | error e => exact Nat.le_refl _

theorem nextId_le_applyOps (ops : List Op) (r : Registry) :
    r.nextId ≤ (applyOps ops r).nextId := by
  induction ops generalizing r with
  | nil => exact Nat.le_refl _
  | cons op ops ih =>
    exact Nat.le_trans (nextId_le_applyOp r op) (ih (applyOp r op))

/-- Any client cached after running `ops` was either already cached before,
or was allocated during `ops` and so carries a stamp at least the starting
counter. -/
theorem clients_applyOps_fresh (ops : List Op) (s : Registry) (k : String) (cl : Client)
    (h : mapGet k (applyOps ops s).clients = some cl) :
    mapGet k s.clients = some cl ∨ s.nextId ≤ cl.id := by
  induction ops generalizing s with
  | nil => exact .inl h
  | cons op ops ih =>
    rcases ih (applyOp s op) h with h2 | h2
    · cases op with
      | register a c =>
        simp only [applyOp, Registry.register] at h2
        exact .inl (mapGet_delete_eq_some h2)
      | setDefault a =>
        simp only [applyOp] at h2
        cases hsd : s.setDefault a with
        | ok r' =>
          rw [hsd] at h2
          obtain ⟨hst, _⟩ := setDefault_ok_state hsd
          subst hst
          exact .inl h2
        | error e => rw [hsd] at h2; exact .inl h2
      | getClient arg =>
        simp only [applyOp] at h2
        cases hgc : s.getClient arg with
        | ok p =>
          obtain ⟨cl', r'⟩ := p
          rw [hgc] at h2
          obtain ⟨k', _, hcases⟩ := getClient_ok_cases hgc
          rcases hcases with ⟨_, rfl⟩ | ⟨_, config, _, hcl, rfl⟩
          · exact .inl h2
          · simp only at h2
            by_cases h3 : lowerStr k' = k
            · subst h3
              rw [mapGet_set_self] at h2
              cases h2
              rw [hcl]
              exact .inr (Nat.le_refl _)
            · rw [mapGet_set_ne _ _ h3] at h2
              exact .inl h2
        | error e => rw [hgc] at h2; exact .inl h2
    · exact .inr (Nat.le_trans (nextId_le_applyOp s op) h2)

/-- A cached client survives any sequence of operations that contains no
`register` targeting its key. -/
theorem clients_preserved (ops : List Op) (s : Registry) (k : String) (cl : Client)
    (hc : mapGet k s.clients = some cl)
    (hops : ∀ op ∈ ops, ∀ a c, op = Op.register a c → lowerStr a ≠ k) :
    mapGet k (applyOps ops s).clients = some cl := by
  induction ops generalizing s with
  | nil => exact hc
  | cons op ops ih =>
    refine ih (applyOp s op) ?_ fun op' hop' => hops op' (List.mem_cons_of_mem _ hop')
    cases op with
    | register a c =>
      simp only [applyOp, Registry.register]
      rw [mapGet_delete_ne _ (hops _ (List.mem_cons_self _ _) a c rfl)]
      exact hc
    | setDefault a =>
      simp only [applyOp]
      cases hsd : s.setDefault a with
      | ok r' =>
        obtain ⟨hst, _⟩ := setDefault_ok_state hsd
        subst hst
        exact hc
      | error e => exact hc
    | getClient arg =>
      simp only [applyOp]
      cases hgc : s.getClient arg with
      | ok p =>
        obtain ⟨cl', r'⟩ := p
        obtain ⟨k', _, hcases⟩ := getClient_ok_cases hgc
        rcases hcases with ⟨_, rfl⟩ | ⟨hmiss, config, _, _, rfl⟩
        · exact hc
        · simp only
          have h3 : lowerStr k' ≠ k := fun hh => by
            rw [hh] at hmiss
            rw [hmiss] at hc
            cases hc
          rw [mapGet_set_ne _ _ h3]
          exact hc
      | error e => exact hc

/-! ## Characterizations of the resolution pipeline -/

theorem resolveAlias_some_of_has {r : Registry} {b : String} (hb : b ≠ "")
    (hh : mapHas (lowerStr b) r.stores = true) :
    r.resolveAlias (some b) = .ok (lowerStr b) := by
  have htb : optTruthy (some b) = true := by simp [optTruthy, hb]
  simp [Registry.resolveAlias, htb, hh]

theorem resolveAlias_some_of_not_has {r : Registry} {b : String} (hb : b ≠ "")
    (hh : mapHas (lowerStr b) r.stores = false) :
    r.resolveAlias (some b) = .error (.notFound b r.listAliases) := by
  have htb : optTruthy (some b) = true := by simp [optTruthy, hb]
  simp [Registry.resolveAlias, htb, hh]

theorem resolveAlias_untruthy {r : Registry} {arg : Option String}
    (h : optTruthy arg = false) :
    r.resolveAlias arg =
      (match r.getDefaultAlias with
        | some d => if d = "" then .error (.noDefault r.listAliases) else .ok d
        | none => .error (.noDefault r.listAliases)) := by
  simp [Registry.resolveAlias, h]

theorem resolveAlias_empty_eq_none (r : Registry) :
    r.resolveAlias (some "") = r.resolveAlias none := by
  rw [resolveAlias_untruthy (by simp [optTruthy]), resolveAlias_untruthy (by simp [optTruthy])]

theorem getClient_resolve_error {r : Registry} {arg : Option String} {e : RegError}
    (hres : r.resolveAlias arg = .error e) : r.getClient arg = .error e := by
  unfold Registry.getClient
  rw [hres]

theorem getStoreInfo_resolve_error {r : Registry} {arg : Option String} {e : RegError}
    (hres : r.resolveAlias arg = .error e) : r.getStoreInfo arg = .error e := by
  unfold Registry.getStoreInfo
  rw [hres]

theorem getClient_cached {r : Registry} {arg : Option String} {k : String} {cl : Client}
    (hres : r.resolveAlias arg = .ok k) (hc : mapGet (lowerStr k) r.clients = some cl) :
    r.getClient arg = .ok (cl, r) := by
  unfold Registry.getClient
  rw [hres]
  simp only
  rw [hc]

theorem getClient_fresh {r : Registry} {arg : Option String} {k : String} {config : StoreConfig}
    (hres : r.resolveAlias arg = .ok k) (hc : mapGet (lowerStr k) r.clients = none)
    (hs : mapGet (lowerStr k) r.stores = some config) :
    r.getClient arg =
      .ok (⟨clientUrl config, config.accessToken, r.nextId⟩,
        { r with
          clients := mapSet (lowerStr k)
            ⟨clientUrl config, config.accessToken, r.nextId⟩ r.clients
          nextId := r.nextId + 1 }) := by
  unfold Registry.getClient
  rw [hres]
  simp only
  rw [hc, hs]

theorem getStoreInfo_found {r : Registry} {arg : Option String} {k : String}
    {config : StoreConfig} (hres : r.resolveAlias arg = .ok k)
    (hs : mapGet (lowerStr k) r.stores = some config) :
    r.getStoreInfo arg = .ok ⟨k, config.domain⟩ := by
  unfold Registry.getStoreInfo
  rw [hres]
  simp only
  rw [hs]

theorem getDefaultAlias_mem {r : Registry} (hr : RegInv r) {d : String}
    (h : r.getDefaultAlias = some d) : d ∈ r.stores.map Prod.fst := by
  unfold Registry.getDefaultAlias at h
  by_cases h1 : optTruthy r.defaultStoreAlias = true
  · rw [if_pos h1] at h
    exact hr.2.2.2.2 d h
  · rw [if_neg h1] at h
    by_cases h2 : r.stores.length = 1
    · rw [if_pos h2] at h
      exact List.mem_of_mem_head? h
    · rw [if_neg h2] at h
      cases h

/-- On an invariant-respecting state, a successfully resolved alias is
lowercase-normalized and names a registered store. -/
theorem resolveAlias_ok_spec {r : Registry} (hr : RegInv r) {arg : Option String} {k : String}
    (h : r.resolveAlias arg = .ok k) :
    lowerStr k = k ∧ k ∈ r.stores.map Prod.fst := by
  unfold Registry.resolveAlias at h
  by_cases h1 : optTruthy arg = true
  · rw [if_pos h1] at h
    simp only at h
    by_cases h2 : mapHas (lowerStr (arg.getD "")) r.stores = true
    · rw [if_pos h2] at h
      cases h
      exact ⟨lowerStr_idem _, (mapGet_isSome_iff_mem_keys _ _).mp h2⟩
    · rw [if_neg h2] at h
      cases h
  · rw [if_neg h1] at h
    cases hd : r.getDefaultAlias with
    | none => rw [hd] at h; cases h
    | some d =>
      rw [hd] at h
      simp only at h
      by_cases h2 : d = ""
      · rw [if_pos h2] at h; cases h
      · rw [if_neg h2] at h
        injection h with hk
        subst hk
        have hmem := getDefaultAlias_mem hr hd
        exact ⟨hr.1 d hmem, hmem⟩

/-- On an invariant-respecting state, a successful resolution always lets
`getClient` and `getStoreInfo` find the store entry. -/
theorem resolved_store_get {r : Registry} (hr : RegInv r) {arg : Option String} {k : String}
    (h : r.resolveAlias arg = .ok k) :
    ∃ config, mapGet (lowerStr k) r.stores = some config := by
  obtain ⟨hlow, hmem⟩ := resolveAlias_ok_spec hr h
  rw [hlow]
  rcases Option.isSome_iff_exists.mp ((mapGet_isSome_iff_mem_keys _ _).mpr hmem) with ⟨c, hc⟩
  exact ⟨c, hc⟩

/-! ## Claims -/

/-- The config value actually stored by `register`. -/
def storedConfig (c : StoreConfig) : StoreConfig :=
  { c with apiVersion := some (jsOrDefault c.apiVersion DEFAULT_API_VERSION) }

theorem register_stores_eq (s : Registry) (a : String) (c : StoreConfig) :
    (s.register a c).stores = mapSet (lowerStr a) (storedConfig c) s.stores := rfl

theorem register_clients_eq (s : Registry) (a : String) (c : StoreConfig) :
    (s.register a c).clients = mapDelete (lowerStr a) s.clients := rfl

/-- Claim C1 (amended to non-empty aliases: `getClient`/`getStoreInfo` treat
the empty alias as absent, so the claim fails at the alias `""`): register
stores under the lowercased alias; every casing of a non-empty alias
resolves through `hasStore`, `setDefault`, `getStoreInfo` and `getClient` to
that entry; `getStoreInfo` returns the lowercased alias; and on every
reachable state no two store keys agree after lowercasing. -/
theorem C1_registry_case_insensitivity :
    (∀ (s : Registry) (a b : String) (c : StoreConfig), a ≠ "" → lowerStr b = lowerStr a →
      mapGet (lowerStr a) ((s.register a c).stores) = some (storedConfig c) ∧
      (s.register a c).hasStore b = true ∧
      (s.register a c).setDefault b =
        .ok { s.register a c with defaultStoreAlias := some (lowerStr a) } ∧
      (s.register a c).getStoreInfo (some b) = .ok ⟨lowerStr a, c.domain⟩ ∧
      (s.register a c).getClient (some b) =
        .ok (⟨clientUrl (storedConfig c), c.accessToken, s.nextId⟩,
          { s.register a c with
            clients := mapSet (lowerStr a)
              ⟨clientUrl (storedConfig c), c.accessToken, s.nextId⟩
              ((s.register a c).clients)
            nextId := s.nextId + 1 })) ∧
    (∀ s : Registry, Reachable s →
      (s.stores.map Prod.fst).Pairwise fun k₁ k₂ => lowerStr k₁ ≠ lowerStr k₂) := by
  constructor
  · intro s a b c ha hb
    have hb' : b ≠ "" := by
      intro hbe
      subst hbe
      rw [show lowerStr "" = "" from rfl] at hb
      exact ha ((lowerStr_eq_empty_iff a).mp hb.symm)
    have hget : mapGet (lowerStr a) ((s.register a c).stores) = some (storedConfig c) := by
      rw [register_stores_eq]
      exact mapGet_set_self _ _ _
    have hhasb : mapHas (lowerStr b) ((s.register a c).stores) = true := by
      rw [hb]
      unfold mapHas
      rw [hget]
      rfl
    have hres : (s.register a c).resolveAlias (some b) = .ok (lowerStr a) := by
      rw [← hb]
      exact resolveAlias_some_of_has hb' hhasb
    have hs2 : mapGet (lowerStr (lowerStr a)) ((s.register a c).stores) =
        some (storedConfig c) := by
      rw [lowerStr_idem]
      exact hget
    have hcnone : mapGet (lowerStr (lowerStr a)) ((s.register a c).clients) = none := by
      rw [lowerStr_idem, register_clients_eq]
      exact mapGet_delete_self _ _
    refine ⟨hget, hhasb, ?_, ?_, ?_⟩
    · simp only [Registry.setDefault]
      rw [hb] at hhasb
      rw [hb, hhasb, if_pos rfl]
    · have h := getStoreInfo_found hres hs2
      exact h
    · have := getClient_fresh hres hcnone hs2
      rw [lowerStr_idem] at this
      exact this
  · intro s hs
    have hr := reachable_inv hs
    refine List.Pairwise.imp_of_mem ?_ hr.2.1
    intro k₁ k₂ h₁ h₂ hne heq
    rw [hr.1 k₁ h₁, hr.1 k₂ h₂] at heq
    exact hne heq

/-- Counterexample to claim C1 as stated: the empty alias `""` can be
registered (`hasStore` sees it), yet `getStoreInfo` given the casing `""` of
that alias does not resolve to its entry — the empty string is falsy, so the
call takes the no-alias default path and fails. -/
theorem C1_counterexample :
    Registry.hasStore ""
        (Registry.register "" ⟨"d2", "t2", none⟩
          (Registry.register "b" ⟨"d1", "t1", none⟩ Registry.empty)) = true ∧
    Registry.getStoreInfo (some "")
        (Registry.register "" ⟨"d2", "t2", none⟩
          (Registry.register "b" ⟨"d1", "t1", none⟩ Registry.empty)) =
      .error (.noDefault ["b", ""]) := by
  constructor
  · decide
  · decide

theorem C1_witness :
    (Registry.register "AcMe" ⟨"d", "t", none⟩ Registry.empty).getStoreInfo (some "ACME") =
      .ok ⟨"acme", "d"⟩ ∧
    (Registry.empty.stores.map Prod.fst).Pairwise
      (fun k₁ k₂ => lowerStr k₁ ≠ lowerStr k₂) := by
  constructor
  · have h := (C1_registry_case_insensitivity.1 Registry.empty "AcMe" "ACME"
      ⟨"d", "t", none⟩ (by decide) (by decide)).2.2.2.1
    rw [show lowerStr "AcMe" = "acme" from by decide] at h
    exact h
  · exact C1_registry_case_insensitivity.2 Registry.empty ⟨[], rfl⟩

theorem getClient_ok_id_lt {s s₁ : Registry} {arg : Option String} {cl : Client}
    (hr : RegInv s) (h : s.getClient arg = .ok (cl, s₁)) :
    cl.id < s₁.nextId ∧ s.nextId ≤ s₁.nextId := by
  obtain ⟨k, _, hc⟩ := getClient_ok_cases h
  rcases hc with ⟨hget, rfl⟩ | ⟨_, config, _, hcl, rfl⟩
  · exact ⟨hr.2.2.2.1 _ (mapGet_eq_some_mem hget), Nat.le_refl _⟩
  · rw [hcl]
    exact ⟨Nat.lt_succ_self _, Nat.le_succ _⟩

/-- Claim C2: every cached-client key is a registered-store key on every
reachable state; re-registering an alias evicts its cached client, and any
client served for that alias afterwards (across any further operations) is
a different instance from any client obtained before the re-registration. -/
theorem C2_cache_invalidation :
    (∀ s : Registry, Reachable s →
      ∀ k ∈ s.clients.map Prod.fst, k ∈ s.stores.map Prod.fst) ∧
    (∀ (s s₁ : Registry) (arg : Option String) (cl₁ : Client) (a : String) (c : StoreConfig),
      Reachable s →
      s.getClient arg = .ok (cl₁, s₁) →
      mapGet (lowerStr a) ((s₁.register a c).clients) = none ∧
      (∀ (ops : List Op) (arg₂ : Option String) (cl₂ : Client) (s₃ : Registry),
        (applyOps ops (s₁.register a c)).resolveAlias arg₂ = .ok (lowerStr a) →
        (applyOps ops (s₁.register a c)).getClient arg₂ = .ok (cl₂, s₃) →
        cl₂ ≠ cl₁)) := by
  constructor
  · intro s hs
    exact (reachable_inv hs).2.2.1
  · intro s s₁ arg cl₁ a c hs hget
    have hr := reachable_inv hs
    have hid₁ : cl₁.id < s₁.nextId := (getClient_ok_id_lt hr hget).1
    constructor
    · rw [register_clients_eq]
      exact mapGet_delete_self _ _
    · intro ops arg₂ cl₂ s₃ hres₂ hget₂
      have hid₂ : s₁.nextId ≤ cl₂.id := by
        obtain ⟨k', hres', hc⟩ := getClient_ok_cases hget₂
        rw [hres₂] at hres'
        injection hres' with hk'
        subst hk'
        rcases hc with ⟨hcached, _⟩ | ⟨_, config, _, hcl, _⟩
        · rw [lowerStr_idem] at hcached
          rcases clients_applyOps_fresh ops (s₁.register a c) (lowerStr a) cl₂ hcached with
            h2 | h2
          · rw [register_clients_eq, mapGet_delete_self] at h2
            cases h2
          · exact h2
        · rw [hcl]
          exact nextId_le_applyOps ops (s₁.register a c)
      intro heq
      rw [heq] at hid₂
      exact Nat.lt_irrefl _ (Nat.lt_of_lt_of_le hid₁ hid₂)

theorem C2_witness :
    (Registry.register "a" ⟨"d", "t", none⟩ Registry.empty).getClient (some "a") =
      .ok (⟨"https://d/admin/api/2024-01/graphql.json", "t", 0⟩,
        { stores := [("a", ⟨"d", "t", some "2024-01"⟩)],
          clients := [("a", ⟨"https://d/admin/api/2024-01/graphql.json", "t", 0⟩)],
          defaultStoreAlias := none, nextId := 1 }) ∧
    (⟨"https://d2/admin/api/2024-01/graphql.json", "t2", 1⟩ : Client) ≠
      (⟨"https://d/admin/api/2024-01/graphql.json", "t", 0⟩ : Client) := by
  refine ⟨by decide, ?_⟩
  have h := (C2_cache_invalidation.2
    (Registry.register "a" ⟨"d", "t", none⟩ Registry.empty)
    { stores := [("a", ⟨"d", "t", some "2024-01"⟩)],
      clients := [("a", ⟨"https://d/admin/api/2024-01/graphql.json", "t", 0⟩)],
      defaultStoreAlias := none, nextId := 1 }
    (some "a") ⟨"https://d/admin/api/2024-01/graphql.json", "t", 0⟩
    "a" ⟨"d2", "t2", none⟩
    ⟨[Op.register "a" ⟨"d", "t", none⟩], rfl⟩ (by decide)).2
    [] (some "a")
    ⟨"https://d2/admin/api/2024-01/graphql.json", "t2", 1⟩
    { stores := [("a", ⟨"d2", "t2", some "2024-01"⟩)],
      clients := [("a", ⟨"https://d2/admin/api/2024-01/graphql.json", "t2", 1⟩)],
      defaultStoreAlias := none, nextId := 2 }
    (by decide) (by decide)
  exact h

theorem resolveAlias_error_shape {r : Registry} {arg : Option String} {e : RegError}
    (h : r.resolveAlias arg = .error e) :
    (∃ a l, e = .notFound a l) ∨ ∃ l, e = .noDefault l := by
  unfold Registry.resolveAlias at h
  by_cases h1 : optTruthy arg = true
  · rw [if_pos h1] at h
    simp only at h
    by_cases h2 : mapHas (lowerStr (arg.getD "")) r.stores = true
    · rw [if_pos h2] at h
      cases h
    · rw [if_neg h2] at h
      injection h with he
      exact .inl ⟨_, _, he.symm⟩
  · rw [if_neg h1] at h
    cases hd : r.getDefaultAlias with
    | none =>
      rw [hd] at h
      injection h with he
      exact .inr ⟨_, he.symm⟩
    | some d =>
      rw [hd] at h
      simp only at h
      by_cases h2 : d = ""
      · rw [if_pos h2] at h
        injection h with he
        exact .inr ⟨_, he.symm⟩
      · rw [if_neg h2] at h
        cases h

theorem getClient_ok_exists {r : Registry} (hr : RegInv r) {arg : Option String} {k : String}
    (hres : r.resolveAlias arg = .ok k) : ∃ p, r.getClient arg = .ok p := by
  obtain ⟨config, hs⟩ := resolved_store_get hr hres
  cases hc : mapGet (lowerStr k) r.clients with
  | some cl => exact ⟨(cl, r), getClient_cached hres hc⟩
  | none => exact ⟨_, getClient_fresh hres hc hs⟩

theorem getStoreInfo_ok_exists {r : Registry} (hr : RegInv r) {arg : Option String} {k : String}
    (hres : r.resolveAlias arg = .ok k) : ∃ i, r.getStoreInfo arg = .ok i := by
  obtain ⟨config, hs⟩ := resolved_store_get hr hres
  exact ⟨_, getStoreInfo_found hres hs⟩

/-- Claim C3 (amended for JavaScript falsiness of the empty string: a
supplied empty alias is treated as no alias, and an empty alias can neither
be served as a default): on every reachable state, a non-empty alias whose
lowercased form is unregistered makes `resolveAlias`/`getClient`/
`getStoreInfo` fail with the not-found error carrying the registered
aliases; with no alias supplied (or the empty alias), they fail with the
no-default error exactly when zero stores are registered, or the sole store
has the empty alias and no non-empty default is set, or two or more stores
are registered and no non-empty default is set — and succeed otherwise. -/
theorem C3_resolution_errors (s : Registry) (hs : Reachable s) :
    (∀ a : String, a ≠ "" → s.hasStore a = false →
      s.resolveAlias (some a) = .error (.notFound a s.listAliases) ∧
      s.getClient (some a) = .error (.notFound a s.listAliases) ∧
      s.getStoreInfo (some a) = .error (.notFound a s.listAliases)) ∧
    (∀ arg : Option String, optTruthy arg = false →
      ((s.stores.length = 0 ∨
        (s.stores.length = 1 ∧ (s.stores.map Prod.fst).head? = some "" ∧
          (∀ d, s.defaultStoreAlias = some d → d = "")) ∨
        (2 ≤ s.stores.length ∧ (∀ d, s.defaultStoreAlias = some d → d = ""))) →
        s.resolveAlias arg = .error (.noDefault s.listAliases) ∧
        s.getClient arg = .error (.noDefault s.listAliases) ∧
        s.getStoreInfo arg = .error (.noDefault s.listAliases)) ∧
      (¬ (s.stores.length = 0 ∨
        (s.stores.length = 1 ∧ (s.stores.map Prod.fst).head? = some "" ∧
          (∀ d, s.defaultStoreAlias = some d → d = "")) ∨
        (2 ≤ s.stores.length ∧ (∀ d, s.defaultStoreAlias = some d → d = ""))) →
        ∃ k, s.resolveAlias arg = .ok k ∧
          (∃ p, s.getClient arg = .ok p) ∧ (∃ i, s.getStoreInfo arg = .ok i))) := by
  have hr := reachable_inv hs
  constructor
  · intro a ha hhas
    have h1 : s.resolveAlias (some a) = .error (.notFound a s.listAliases) := by
      apply resolveAlias_some_of_not_has ha
      unfold Registry.hasStore at hhas
      exact hhas
    exact ⟨h1, getClient_resolve_error h1, getStoreInfo_resolve_error h1⟩
  · intro arg harg
    have hresolve := resolveAlias_untruthy (r := s) harg
    constructor
    · intro hcond
      have h1 : s.resolveAlias arg = .error (.noDefault s.listAliases) := by
        rw [hresolve]
        rcases hcond with h0 | ⟨h1len, hhead, hnd⟩ | ⟨h2len, hnd⟩
        · have hd0 : s.defaultStoreAlias = none := by
            cases hdd : s.defaultStoreAlias with
            | none => rfl
            | some d =>
              have := hr.2.2.2.2 d hdd
              rw [List.length_eq_zero] at h0
              rw [h0] at this
              simp at this
          have : s.getDefaultAlias = none := by
            unfold Registry.getDefaultAlias
            rw [hd0, h0]
            simp [optTruthy]
          rw [this]
        · have hdfalse : optTruthy s.defaultStoreAlias = false := by
            cases hdd : s.defaultStoreAlias with
            | none => rfl
            | some d =>
              have := hnd d hdd
              simp [optTruthy, this]
          have : s.getDefaultAlias = some "" := by
            unfold Registry.getDefaultAlias
            rw [hdfalse, if_neg (by simp), if_pos h1len, hhead]
          rw [this]
          simp
        · have hdfalse : optTruthy s.defaultStoreAlias = false := by
            cases hdd : s.defaultStoreAlias with
            | none => rfl
            | some d =>
              have := hnd d hdd
              simp [optTruthy, this]
          have : s.getDefaultAlias = none := by
            unfold Registry.getDefaultAlias
            rw [hdfalse, if_neg (by simp), if_neg (by omega)]
          rw [this]
      exact ⟨h1, getClient_resolve_error h1, getStoreInfo_resolve_error h1⟩
    · intro hcond
      have h0 : s.stores.length ≠ 0 := fun h => hcond (Or.inl h)
      have hok : ∃ k, s.resolveAlias arg = .ok k := by
        by_cases hdt : optTruthy s.defaultStoreAlias = true
        · obtain ⟨d, hdd⟩ : ∃ d, s.defaultStoreAlias = some d := by
            cases hdd : s.defaultStoreAlias with
            | none => rw [hdd] at hdt; cases hdt
            | some d => exact ⟨d, rfl⟩
          have hdne : d ≠ "" := by
            rw [hdd] at hdt
            simpa [optTruthy] using hdt
          have hgd : s.getDefaultAlias = some d := by
            unfold Registry.getDefaultAlias
            rw [hdt, if_pos rfl, hdd]
          refine ⟨d, ?_⟩
          rw [hresolve, hgd]
          simp [hdne]
        · have hdfalse : optTruthy s.defaultStoreAlias = false := by
            revert hdt
            cases optTruthy s.defaultStoreAlias <;> simp
          have hnd : ∀ d, s.defaultStoreAlias = some d → d = "" := by
            intro d hdd
            rw [hdd] at hdfalse
            simpa [optTruthy] using hdfalse
          have hlen1 : s.stores.length = 1 := by
            rcases Nat.lt_or_ge s.stores.length 2 with hlt | hge
            · omega
            · exact absurd (Or.inr (Or.inr ⟨hge, hnd⟩)) hcond
          obtain ⟨k₀, hk₀⟩ : ∃ k₀, (s.stores.map Prod.fst).head? = some k₀ := by
            cases hsl : s.stores with
            | nil => rw [hsl] at hlen1; cases hlen1
            | cons e tl => exact ⟨e.1, rfl⟩
          have hk₀ne : k₀ ≠ "" := by
            intro hke
            exact hcond (Or.inr (Or.inl ⟨hlen1, hke ▸ hk₀, hnd⟩))
          have hgd : s.getDefaultAlias = some k₀ := by
            unfold Registry.getDefaultAlias
            rw [hdfalse, if_neg (by simp), if_pos hlen1, hk₀]
          refine ⟨k₀, ?_⟩
          rw [hresolve, hgd]
          simp [hk₀ne]
      obtain ⟨k, hk⟩ := hok
      exact ⟨k, hk, getClient_ok_exists hr hk, getStoreInfo_ok_exists hr hk⟩

/-- Counterexample to claim C3 as stated: with one store `"a"` registered,
`resolveAlias` given the (unregistered) alias `""` succeeds with the default
store instead of failing with the not-found error. -/
theorem C3_counterexample :
    (Registry.register "a" ⟨"d", "t", none⟩ Registry.empty).hasStore "" = false ∧
    (Registry.register "a" ⟨"d", "t", none⟩ Registry.empty).resolveAlias (some "") =
      .ok "a" := by
  constructor
  · decide
  · decide

theorem C3_witness :
    (Registry.register "a" ⟨"d", "t", none⟩ Registry.empty).resolveAlias (some "b") =
      .error (.notFound "b" ["a"]) ∧
    Registry.empty.getClient none = .error (.noDefault []) := by
  constructor
  · have h := ((C3_resolution_errors
      (Registry.register "a" ⟨"d", "t", none⟩ Registry.empty)
      ⟨[Op.register "a" ⟨"d", "t", none⟩], rfl⟩).1 "b" (by decide) (by decide)).1
    exact h
  · have h := (((C3_resolution_errors Registry.empty ⟨[], rfl⟩).2 none rfl).1
      (Or.inl rfl)).2.1
    exact h

/-- Claim C4 (amended for JavaScript falsiness: an explicitly set EMPTY
default alias is ignored by the truthiness check): for every registry state,
`getDefaultAlias` returns the explicitly set default when a non-empty one
has been set; otherwise, with exactly one store registered, the sole store's
alias; otherwise none, without raising an error. -/
theorem C4_default_alias_resolution (s : Registry) :
    (∀ d, s.defaultStoreAlias = some d → d ≠ "" → s.getDefaultAlias = some d) ∧
    ((∀ d, s.defaultStoreAlias = some d → d = "") →
      ∀ k c₀, s.stores = [(k, c₀)] → s.getDefaultAlias = some k) ∧
    ((∀ d, s.defaultStoreAlias = some d → d = "") → s.stores.length ≠ 1 →
      s.getDefaultAlias = none) := by
  refine ⟨?_, ?_, ?_⟩
  · intro d hd hdne
    unfold Registry.getDefaultAlias
    rw [hd]
    simp [optTruthy, hdne]
  · intro hnd k c₀ hs
    have hdfalse : optTruthy s.defaultStoreAlias = false := by
      cases hdd : s.defaultStoreAlias with
      | none => rfl
      | some d => simp [optTruthy, hnd d hdd]
    unfold Registry.getDefaultAlias
    rw [hdfalse, if_neg (by simp), hs]
    rfl
  · intro hnd hlen
    have hdfalse : optTruthy s.defaultStoreAlias = false := by
      cases hdd : s.defaultStoreAlias with
      | none => rfl
      | some d => simp [optTruthy, hnd d hdd]
    unfold Registry.getDefaultAlias
    rw [hdfalse, if_neg (by simp), if_neg hlen]

/-- Counterexample to claim C4 as stated: after registering stores `""` and
`"b"` and explicitly calling `setDefault ""` (which succeeds and records the
default), `getDefaultAlias` returns none instead of the set default,
because the empty stored default is falsy. -/
theorem C4_counterexample :
    (Registry.setDefault ""
        (Registry.register "b" ⟨"d2", "t2", none⟩
          (Registry.register "" ⟨"d1", "t1", none⟩ Registry.empty))).map
        (fun r => (r.defaultStoreAlias, r.getDefaultAlias)) =
      .ok (some "", none) := by decide

theorem C4_witness :
    ({ stores := [("x", ⟨"d", "t", some "2024-01"⟩)], clients := [],
       defaultStoreAlias := some "x", nextId := 0 } : Registry).getDefaultAlias =
      some "x" ∧
    ({ stores := [("y", ⟨"d", "t", some "2024-01"⟩)], clients := [],
       defaultStoreAlias := none, nextId := 0 } : Registry).getDefaultAlias =
      some "y" ∧
    Registry.empty.getDefaultAlias = none := by
  refine ⟨?_, ?_, ?_⟩
  · exact (C4_default_alias_resolution _).1 "x" rfl (by decide)
  · exact (C4_default_alias_resolution _).2.1 (by simp) "y" ⟨"d", "t", some "2024-01"⟩ rfl
  · exact (C4_default_alias_resolution _).2.2 (by simp [Registry.empty]) (by decide)

/-- Claim C5: when `getClient` succeeds, a later `getClient` whose argument
resolves to the same alias — with no intervening `register` for that alias,
across any other operations — returns the identical cached client instance
and leaves the state unchanged; and the first call changed nothing but (at
most) inserting that client into the cache. -/
theorem C5_client_caching (s : Registry) (arg arg₂ : Option String) (k : String)
    (cl : Client) (s₁ : Registry) (ops : List Op)
    (hres : s.resolveAlias arg = .ok k)
    (hget : s.getClient arg = .ok (cl, s₁))
    (hops : ∀ op ∈ ops, ∀ a c, op = Op.register a c → lowerStr a ≠ lowerStr k)
    (hres₂ : (applyOps ops s₁).resolveAlias arg₂ = .ok k) :
    (applyOps ops s₁).getClient arg₂ = .ok (cl, applyOps ops s₁) ∧
    s₁.stores = s.stores ∧ s₁.defaultStoreAlias = s.defaultStoreAlias ∧
    (s₁.clients = s.clients ∨ s₁.clients = mapSet (lowerStr k) cl s.clients) := by
  obtain ⟨k', hres', hc⟩ := getClient_ok_cases hget
  rw [hres] at hres'
  injection hres' with hk'
  subst hk'
  have hcache : mapGet (lowerStr k) s₁.clients = some cl := by
    rcases hc with ⟨hcached, rfl⟩ | ⟨_, config, _, _, rfl⟩
    · exact hcached
    · exact mapGet_set_self _ _ _
  have hpres : mapGet (lowerStr k) (applyOps ops s₁).clients = some cl :=
    clients_preserved ops s₁ (lowerStr k) cl hcache hops
  refine ⟨getClient_cached hres₂ hpres, ?_⟩
  rcases hc with ⟨_, rfl⟩ | ⟨_, config, _, _, rfl⟩
  · exact ⟨rfl, rfl, .inl rfl⟩
  · exact ⟨rfl, rfl, .inr rfl⟩

theorem C5_witness :
    (applyOps []
        { stores := [("a", ⟨"d", "t", some "2024-01"⟩)],
          clients := [("a", ⟨"https://d/admin/api/2024-01/graphql.json", "t", 0⟩)],
          defaultStoreAlias := none, nextId := 1 }).getClient (some "A") =
      .ok (⟨"https://d/admin/api/2024-01/graphql.json", "t", 0⟩,
        applyOps []
          { stores := [("a", ⟨"d", "t", some "2024-01"⟩)],
            clients := [("a", ⟨"https://d/admin/api/2024-01/graphql.json", "t", 0⟩)],
            defaultStoreAlias := none, nextId := 1 }) := by
  have h := C5_client_caching
    (Registry.register "a" ⟨"d", "t", none⟩ Registry.empty)
    (some "a") (some "A") "a"
    ⟨"https://d/admin/api/2024-01/graphql.json", "t", 0⟩
    { stores := [("a", ⟨"d", "t", some "2024-01"⟩)],
      clients := [("a", ⟨"https://d/admin/api/2024-01/graphql.json", "t", 0⟩)],
      defaultStoreAlias := none, nextId := 1 }
    [] (by decide) (by decide)
    (fun op hop => absurd hop (List.not_mem_nil op)) (by decide)
  exact h.1

theorem applyOp_stores_cases (s : Registry) (op : Op) :
    (applyOp s op).stores = s.stores ∨
      ∃ a cfg, op = Op.register a cfg ∧
        (applyOp s op).stores = mapSet (lowerStr a) (storedConfig cfg) s.stores := by
  cases op with
  | register a cfg => exact .inr ⟨a, cfg, rfl, rfl⟩
  | setDefault a =>
    simp only [applyOp]
    cases h : s.setDefault a with
    | ok r' =>
      obtain ⟨hst, _⟩ := setDefault_ok_state h
      subst hst
      exact .inl rfl
    | error e => exact .inl rfl
  | getClient arg =>
    simp only [applyOp]
    cases h : s.getClient arg with
    | ok p =>
      obtain ⟨cl, r'⟩ := p
      obtain ⟨k, _, hc⟩ := getClient_ok_cases h
      rcases hc with ⟨_, rfl⟩ | ⟨_, config, _, _, rfl⟩
      · exact .inl rfl
      · exact .inl rfl
    | error e => exact .inl rfl

/-- Every entry of the stores map after a run satisfies `P` provided the
initial entries do and every registered (normalized) config does. -/
theorem stores_entries_pred (P : StoreConfig → Prop) (ops : List Op) (s : Registry)
    (hs : ∀ e ∈ s.stores, P e.2)
    (hops : ∀ op ∈ ops, ∀ a cfg, op = Op.register a cfg → P (storedConfig cfg)) :
    ∀ e ∈ (applyOps ops s).stores, P e.2 := by
  induction ops generalizing s with
  | nil => exact hs
  | cons op ops ih =>
    refine ih (applyOp s op) ?_ fun op' hop' => hops op' (List.mem_cons_of_mem _ hop')
    rcases applyOp_stores_cases s op with heq | ⟨a, cfg, hop, heq⟩
    · rw [heq]; exact hs
    · rw [heq]
      intro e he
      rcases mem_mapSet he with h | h
      · rw [h]
        exact hops op (List.mem_cons_self _ _) a cfg hop
      · exact hs e h

/-- Claim C6 (amended: `register` performs no validation of `domain` or
`credential` — it stores them verbatim, so entries are non-empty exactly
when every `register` call supplied non-empty values, which the config
schema guarantees for loader-registered stores; the `apiVersion` part holds
unconditionally): after any operation sequence every stored entry has its
`apiVersion` set, entries are non-empty whenever all registered configs
were, and a `register` without `apiVersion` stores the fixed default. -/
theorem C6_stored_config_normalization :
    (∀ ops : List Op, ∀ e ∈ (applyOps ops Registry.empty).stores,
      ∃ v, e.2.apiVersion = some v) ∧
    (∀ ops : List Op,
      (∀ op ∈ ops, ∀ a cfg, op = Op.register a cfg →
        cfg.domain ≠ "" ∧ cfg.accessToken ≠ "") →
      ∀ e ∈ (applyOps ops Registry.empty).stores,
        e.2.domain ≠ "" ∧ e.2.accessToken ≠ "") ∧
    (∀ (s : Registry) (a d t : String),
      mapGet (lowerStr a) ((s.register a ⟨d, t, none⟩).stores) =
        some ⟨d, t, some DEFAULT_API_VERSION⟩) := by
  refine ⟨?_, ?_, ?_⟩
  · intro ops
    refine stores_entries_pred (fun c => ∃ v, c.apiVersion = some v) ops Registry.empty
      (by simp [Registry.empty]) ?_
    intro op hop a cfg hopr
    exact ⟨_, rfl⟩
  · intro ops hops
    refine stores_entries_pred (fun c => c.domain ≠ "" ∧ c.accessToken ≠ "") ops
      Registry.empty (by simp [Registry.empty]) ?_
    intro op hop a cfg hopr
    exact hops op hop a cfg hopr
  · intro s a d t
    rw [register_stores_eq]
    exact mapGet_set_self _ _ _

/-- Counterexample to claim C6 as stated: `register` happily stores a config
whose domain and credential are both empty. -/
theorem C6_counterexample :
    ∃ e ∈ (Registry.register "a" ⟨"", "", none⟩ Registry.empty).stores,
      e.2.domain = "" ∧ e.2.accessToken = "" := by decide

theorem C6_witness :
    (∀ e ∈ (applyOps [Op.register "A" ⟨"d", "t", none⟩] Registry.empty).stores,
      e.2.domain ≠ "" ∧ e.2.accessToken ≠ "") ∧
    mapGet (lowerStr "A") ((Registry.register "A" ⟨"d", "t", none⟩ Registry.empty).stores) =
      some ⟨"d", "t", some DEFAULT_API_VERSION⟩ := by
  constructor
  · refine C6_stored_config_normalization.2.1 _ ?_
    intro op hop a cfg hopr
    simp only [List.mem_singleton] at hop
    subst hop
    injection hopr with h1 h2
    subst h2
    exact ⟨by decide, by decide⟩
  · exact C6_stored_config_normalization.2.2 Registry.empty "A" "d" "t"

/-- Claim C9: on every reachable registry state, the "Store not found"
throw sites that follow a successful `resolveAlias` inside `getClient` and
`getStoreInfo` never fire: whenever resolution succeeds the subsequent
store-map lookup succeeds. -/
theorem C9_dead_branch_unreachable (s : Registry) (hs : Reachable s) (arg : Option String) :
    (∀ a' l, s.getClient arg ≠ .error (.storeMissingAfterResolve a' l)) ∧
    (∀ a' l, s.getStoreInfo arg ≠ .error (.storeMissingAfterResolve a' l)) := by
  have hr := reachable_inv hs
  cases hres : s.resolveAlias arg with
  | error e =>
    have hshape := resolveAlias_error_shape hres
    constructor
    · intro a' l heq
      rw [getClient_resolve_error hres] at heq
      injection heq with he
      rcases hshape with ⟨a₀, l₀, rfl⟩ | ⟨l₀, rfl⟩ <;> cases he
    · intro a' l heq
      rw [getStoreInfo_resolve_error hres] at heq
      injection heq with he
      rcases hshape with ⟨a₀, l₀, rfl⟩ | ⟨l₀, rfl⟩ <;> cases he
  | ok k =>
    obtain ⟨config, hsg⟩ := resolved_store_get hr hres
    constructor
    · intro a' l heq
      cases hc : mapGet (lowerStr k) s.clients with
      | some cl =>
        rw [getClient_cached hres hc] at heq
        cases heq
      | none =>
        rw [getClient_fresh hres hc hsg] at heq
        cases heq
    · intro a' l heq
      rw [getStoreInfo_found hres hsg] at heq
      cases heq

theorem C9_witness :
    (Registry.register "a" ⟨"d", "t", none⟩ Registry.empty).getClient (some "a") ≠
      .error (.storeMissingAfterResolve (some "a") ["a"]) ∧
    (Registry.register "a" ⟨"d", "t", none⟩ Registry.empty).getStoreInfo (some "a") ≠
      .error (.storeMissingAfterResolve (some "a") ["a"]) := by
  have h := C9_dead_branch_unreachable
    (Registry.register "a" ⟨"d", "t", none⟩ Registry.empty)
    ⟨[Op.register "a" ⟨"d", "t", none⟩], rfl⟩ (some "a")
  exact ⟨h.1 (some "a") ["a"], h.2 (some "a") ["a"]⟩

/-! ## Loader lemmas and claims -/

theorem loadFromConfigFile_env_irrelevant (rp : String → String)
    (fc : String → Option String) (pj : String → Option Json) (e e' : Env)
    (registry : Registry) (p : String) :
    loadFromConfigFile ⟨rp, fc, pj, e⟩ registry p =
      loadFromConfigFile ⟨rp, fc, pj, e'⟩ registry p := rfl

theorem loadConfig_configPath (w : World) (registry : Registry) {p : String}
    (hp : p ≠ "") (cliToken cliDomain : Option String) :
    loadConfig w registry ⟨some p, cliToken, cliDomain⟩ =
      loadFromConfigFile w registry p := by
  unfold loadConfig
  rw [if_pos (by simp [optTruthy, hp])]
  rfl

theorem mapHas_register_mono {r : Registry} {k : String}
    (h : mapHas k r.stores = true) (a : String) (c : StoreConfig) :
    mapHas k ((r.register a c).stores) = true := by
  rw [register_stores_eq]
  unfold mapHas at h ⊢
  rw [mapGet_isSome_iff_mem_keys] at h ⊢
  exact mem_keys_mapSet _ _ h

theorem foldl_register_has_mono (l : List (String × StoreConfig)) (r : Registry)
    (k : String) (h : mapHas k r.stores = true) :
    mapHas k ((l.foldl (fun r p => r.register p.1 p.2) r).stores) = true := by
  induction l generalizing r with
  | nil => exact h
  | cons hd tl ih => exact ih _ (mapHas_register_mono h hd.1 hd.2)

theorem foldl_register_hasStore (l : List (String × StoreConfig)) (r : Registry) :
    ∀ ae ∈ l,
      mapHas (lowerStr ae.1) ((l.foldl (fun r p => r.register p.1 p.2) r).stores) = true := by
  induction l generalizing r with
  | nil => intro ae h; cases h
  | cons hd tl ih =>
    intro ae h
    rcases List.mem_cons.mp h with rfl | h
    · refine foldl_register_has_mono tl _ _ ?_
      rw [register_stores_eq]
      unfold mapHas
      rw [mapGet_set_self]
      rfl
    · exact ih _ ae h

theorem parseAndRegisterConfig_ok_hasStore {w : World} {r : Registry}
    {js src : String} {result : Registry}
    (h : parseAndRegisterConfig w r js src = .ok result)
    {pjv : Json} {cfg : ConfigFile}
    (hpj : w.parseJson js = some pjv) (hsp : safeParseConfig pjv = some cfg) :
    ∀ ae ∈ cfg.stores, result.hasStore ae.1 = true := by
  unfold parseAndRegisterConfig at h
  rw [hpj] at h
  simp only at h
  rw [hsp] at h
  simp only at h
  have hfold : ∀ ae ∈ cfg.stores,
      (cfg.stores.foldl (fun r p => r.register p.1 p.2) r).hasStore ae.1 = true :=
    fun ae hae => foldl_register_hasStore cfg.stores r ae hae
  cases hd : cfg.defaultStore with
  | none =>
    rw [hd] at h
    simp only at h
    by_cases hz : (cfg.stores.foldl (fun r p => r.register p.1 p.2) r).size = 0
    · rw [if_pos hz] at h
      cases h
    · rw [if_neg hz] at h
      injection h with hres
      subst hres
      exact hfold
  | some d =>
    rw [hd] at h
    simp only at h
    by_cases hde : d = ""
    · rw [if_pos hde] at h
      simp only at h
      by_cases hz : (cfg.stores.foldl (fun r p => r.register p.1 p.2) r).size = 0
      · rw [if_pos hz] at h
        cases h
      · rw [if_neg hz] at h
        injection h with hres
        subst hres
        exact hfold
    · rw [if_neg hde] at h
      cases hsd : (cfg.stores.foldl (fun r p => r.register p.1 p.2) r).setDefault d with
      | error e =>
        rw [hsd] at h
        cases h
      | ok r' =>
        rw [hsd] at h
        simp only at h
        obtain ⟨hst, _⟩ := setDefault_ok_state hsd
        by_cases hz : r'.size = 0
        · rw [if_pos hz] at h
          cases h
        · rw [if_neg hz] at h
          injection h with hres
          subst hres
          subst hst
          exact hfold

/-- Claim C7: sources are tried in strict priority order without
fall-through — a supplied config-file path (which the CLI parser only ever
produces non-empty) makes the loader consult only that file: the result is
independent of every environment variable, a missing file is a not-found
error naming the resolved absolute path, and on success exactly the file's
stores are registered. -/
theorem C7_config_file_priority :
    (∀ (args : List String) (o : LoadConfigOptions),
      o.configPath ≠ some "" → (parseConfigArgs args o).configPath ≠ some "") ∧
    (∀ (rp : String → String) (fc : String → Option String) (pj : String → Option Json)
        (e e' : Env) (registry : Registry) (p : String) (cliToken cliDomain : Option String),
      p ≠ "" →
      loadConfig ⟨rp, fc, pj, e⟩ registry ⟨some p, cliToken, cliDomain⟩ =
        loadConfig ⟨rp, fc, pj, e'⟩ registry ⟨some p, cliToken, cliDomain⟩ ∧
      (fc (rp p) = none →
        loadConfig ⟨rp, fc, pj, e⟩ registry ⟨some p, cliToken, cliDomain⟩ =
          .error (.fileNotFound (rp p))) ∧
      (∀ result content cfgJson cfg,
        loadConfig ⟨rp, fc, pj, e⟩ registry ⟨some p, cliToken, cliDomain⟩ = .ok result →
        fc (rp p) = some content → pj content = some cfgJson →
        safeParseConfig cfgJson = some cfg →
        ∀ ae ∈ cfg.stores, result.hasStore ae.1 = true)) := by
  constructor
  · have main : ∀ (n : Nat) (args : List String) (o : LoadConfigOptions),
        args.length ≤ n → o.configPath ≠ some "" →
        (parseConfigArgs args o).configPath ≠ some "" := by
      intro n
      induction n with
      | zero =>
        intro args o hlen ho
        cases args with
        | nil => exact ho
        | cons a rest => simp at hlen
      | succ n ih =>
        intro args o hlen ho
        match args with
        | [] => exact ho
        | [a] => exact ho
        | a :: next :: rest =>
          have hr1 : rest.length ≤ n := by
            simp only [List.length_cons] at hlen
            omega
          have hr2 : (next :: rest).length ≤ n := by
            simp only [List.length_cons] at hlen ⊢
            omega
          simp only [parseConfigArgs]
          by_cases h1 : a = "--config" ∧ next ≠ ""
          · rw [if_pos h1]
            exact ih rest _ hr1 (by simp [h1.2])
          · rw [if_neg h1]
            by_cases h2 : a = "--accessToken" ∧ next ≠ ""
            · rw [if_pos h2]
              exact ih rest _ hr1 ho
            · rw [if_neg h2]
              by_cases h3 : a = "--domain" ∧ next ≠ ""
              · rw [if_pos h3]
                exact ih rest _ hr1 ho
              · rw [if_neg h3]
                exact ih (next :: rest) _ hr2 ho
    intro args o ho
    exact main args.length args o (Nat.le_refl _) ho
  · intro rp fc pj e e' registry p cliToken cliDomain hp
    rw [loadConfig_configPath _ _ hp, loadConfig_configPath _ _ hp]
    refine ⟨loadFromConfigFile_env_irrelevant rp fc pj e e' registry p, ?_, ?_⟩
    · intro hmiss
      unfold loadFromConfigFile
      simp only
      rw [hmiss]
    · intro result content cfgJson cfg hok hcontent hpj hsp
      unfold loadFromConfigFile at hok
      simp only at hok
      rw [hcontent] at hok
      exact parseAndRegisterConfig_ok_hasStore hok hpj hsp

theorem C7_witness :
    (parseConfigArgs ["--config", "cfg.json"]
        ⟨none, none, none⟩).configPath ≠ some "" ∧
    loadConfig ⟨fun s => s, fun _ => none, fun _ => none,
        ⟨some "storesconfigtext", some "tok", some "dom"⟩⟩ Registry.empty
        ⟨some "cfg.json", none, none⟩ =
      .error (.fileNotFound "cfg.json") := by
  constructor
  · exact C7_config_file_priority.1 ["--config", "cfg.json"] ⟨none, none, none⟩ (by simp)
  · exact ((C7_config_file_priority.2 (fun s => s) (fun _ => none) (fun _ => none)
      ⟨some "storesconfigtext", some "tok", some "dom"⟩ ⟨none, none, none⟩
      Registry.empty "cfg.json" none none (by simp)).2.1) rfl

/-- Claim C8 (amended: when the structurally valid config with an empty
`stores` mapping also names a non-empty `defaultStore`, the `setDefault`
call runs before the empty-registry check and the loader fails with its
not-found error instead of the empty-config error; either way no store is
registered): loading a parsed-and-validated configuration whose `stores`
mapping is empty into a registry with no stores registers nothing, and
fails with the empty-config error naming the source when no (non-empty)
`defaultStore` is given, and with the `setDefault` not-found error when one
is. -/
theorem C8_empty_stores_config (w : World) (registry : Registry) (text source : String)
    (cfgJson : Json) (cfg : ConfigFile)
    (hpj : w.parseJson text = some cfgJson)
    (hsp : safeParseConfig cfgJson = some cfg)
    (hempty : cfg.stores = [])
    (hreg : registry.stores = []) :
    (cfg.stores.foldl (fun r p => r.register p.1 p.2) registry) = registry ∧
    ((∀ d, cfg.defaultStore = some d → d = "") →
      parseAndRegisterConfig w registry text source = .error (.noStoresDefined source)) ∧
    (∀ d, cfg.defaultStore = some d → d ≠ "" →
      parseAndRegisterConfig w registry text source =
        .error (.reg (.notFound d registry.listAliases))) := by
  have hfold : (cfg.stores.foldl (fun r p => r.register p.1 p.2) registry) = registry := by
    rw [hempty]
    rfl
  have hsize : registry.size = 0 := by
    unfold Registry.size
    rw [hreg]
    rfl
  refine ⟨hfold, ?_, ?_⟩
  · intro hnd
    unfold parseAndRegisterConfig
    rw [hpj]
    simp only
    rw [hsp]
    simp only
    rw [hfold]
    cases hd : cfg.defaultStore with
    | none =>
      simp only
      rw [if_pos hsize]
    | some d =>
      have hde : d = "" := hnd d hd
      subst hde
      simp only [if_pos rfl]
      rw [if_pos trivial]
      simp only
      rw [if_pos hsize]
  · intro d hd hdne
    unfold parseAndRegisterConfig
    rw [hpj]
    simp only
    rw [hsp]
    simp only
    rw [hfold, hd]
    simp only
    rw [if_neg hdne]
    have hsd : registry.setDefault d = .error (.notFound d registry.listAliases) := by
      unfold Registry.setDefault
      rw [if_neg ?_]
      unfold mapHas
      rw [hreg]
      simp [mapGet]
    rw [hsd]

/-- Counterexample to claim C8 as stated: the configuration text
`{"stores":{},"defaultStore":"x"}` parses, passes structural validation and
has an empty stores mapping, yet loading it fails with the `setDefault`
not-found error, not with the empty-config error naming the source. -/
theorem C8_counterexample :
    safeParseConfig (Json.obj [("stores", Json.obj []), ("defaultStore", Json.str "x")]) =
      some ⟨[], some "x"⟩ ∧
    parseAndRegisterConfig
        ⟨fun s => s, fun _ => none,
          fun _ => some (Json.obj [("stores", Json.obj []), ("defaultStore", Json.str "x")]),
          ⟨none, none, none⟩⟩
        Registry.empty "cfgtext"
        "SHOPIFY_STORES_CONFIG env var" =
      .error (.reg (.notFound "x" [])) := by
  constructor
  · rfl
  · rfl

theorem C8_witness :
    parseAndRegisterConfig
        ⟨fun s => s, fun _ => none, fun _ => some (Json.obj [("stores", Json.obj [])]),
          ⟨none, none, none⟩⟩
        Registry.empty "storesconfigtext" "config file: /tmp/empty.json" =
      .error (.noStoresDefined "config file: /tmp/empty.json") := by
  refine (C8_empty_stores_config
    ⟨fun s => s, fun _ => none, fun _ => some (Json.obj [("stores", Json.obj [])]),
      ⟨none, none, none⟩⟩
    Registry.empty "storesconfigtext" "config file: /tmp/empty.json"
    (Json.obj [("stores", Json.obj [])]) ⟨[], none⟩
    rfl rfl rfl rfl).2.1 ?_
  intro d hd
  cases hd

/-- Claim C10: a multi-store environment variable holding the literal text
`undefined` is treated exactly as if the variable were unset — the loader
neither resolves it as a path nor parses it as JSON, and falls through to
the legacy environment pair and then the CLI flags. -/
theorem C10_undefined_env_sentinel (rp : String → String) (fc : String → Option String)
    (pj : String → Option Json) (envToken envDomain : Option String)
    (registry : Registry) (options : LoadConfigOptions) :
    loadConfig ⟨rp, fc, pj, ⟨some "undefined", envToken, envDomain⟩⟩ registry options =
      loadConfig ⟨rp, fc, pj, ⟨none, envToken, envDomain⟩⟩ registry options := by
  unfold loadConfig
  by_cases h : optTruthy options.configPath = true
  · rw [if_pos h, if_pos h]
    exact loadFromConfigFile_env_irrelevant rp fc pj _ _ registry _
  · rw [if_neg h, if_neg h]
    simp only
    rw [if_neg (by decide)]
    rfl

